import Mathlib

/-!
A shallow embedding of `c2clat.cpp` (inter-core latency measurement tool)
together with theorems settling the specification claims.

Modelling conventions:
* `std::chrono::nanoseconds` counts are `Int` (the rep is a signed 64-bit
  integer; all values arising here stay far below `2^63 - 1`, the value of
  `std::chrono::nanoseconds::max()`).  C++ integer division truncates toward
  zero, which is `Int.tdiv`.
* The measured round-trip durations of the timing loop are supplied by an
  oracle `s : Nat → Nat → List Int`: `s i j` is the list of the `nsamples`
  elapsed durations `ts2 - ts1` observed for the pair of loop indices
  `(i, j)`.  The code's `rtt = min(rtt, ts2 - ts1)` fold starting from
  `nanoseconds::max()` is `measureRtt`.
* `std::map<std::pair<int,int>, nanoseconds>` is an association list
  `LatMap`; `operator[]` on an absent key default-inserts a zero value
  (`mapIndex`), and `data[k] = v` is insert-or-assign (`mapInsert`).
* `cpu_set_t` is a predicate `Nat → Bool`; glibc's `CPU_ISSET` returns
  `0` for an index outside `[0, CPU_SETSIZE)`, which `cpuIsSet` mirrors.
* `getopt` with optstring `"b:e:ps:"` (GNU behaviour: non-option arguments
  are skipped and remembered, an option cluster may carry its argument
  inline, `--` ends the scan) is `parseLoop`; `std::stoi` is `stoi`,
  returning `none` when the C++ call would throw.
-/

/-- The value `std::chrono::nanoseconds::max().count() = 2^63 - 1`. -/
def nsMax : Int := 2 ^ 63 - 1

/-- The timing loop's fold: `rtt = nanoseconds::max(); for each sample d:
`rtt = min(rtt, d)`. -/
def measureRtt (ds : List Int) : Int := ds.foldl min nsMax

/-- Computes `rtt / 2 / 100` with C++ (truncating) integer division: the one-way
latency recorded for a pair. -/
def latencyOf (ds : List Int) : Int := ((measureRtt ds).tdiv 2).tdiv 100

/-- Keys of the `std::map`: pairs of loop indices (`size_t i, j`). -/
abbrev LatKey := Nat × Nat

/-- The `std::map<std::pair<int,int>, std::chrono::nanoseconds>` as an
association list. -/
abbrev LatMap := List (LatKey × Int)

/-- Map lookup. -/
def mapFind : LatMap → LatKey → Option Int
  | [], _ => none
  | (k, v) :: t, q => if q = k then some v else mapFind t q

/-- Assignment `data[k] = v`: insert or overwrite. -/
def mapInsert : LatMap → LatKey → Int → LatMap
  | [], k, v => [(k, v)]
  | (k', v') :: t, k, v =>
      if k = k' then (k, v) :: t else (k', v') :: mapInsert t k v

/-- Lookup `data[k]` as an rvalue: returns the stored value, default-inserting a
value-initialized (zero) duration when the key is absent. -/
def mapIndex (m : LatMap) (k : LatKey) : Int × LatMap :=
  match mapFind m k with
  | some v => (v, m)
  | none => (0, mapInsert m k 0)

/-- Fold a list of insert-or-assign operations over a map. -/
def insertAll (m : LatMap) (kvs : List (LatKey × Int)) : LatMap :=
  kvs.foldl (fun m kv => mapInsert m kv.1 kv.2) m

/-- The pair loop `for i in [0, n); for j in [i+1, n)`: the ordered list of
index pairs `(i, j)` with `i < j < n`. -/
def pairKeys (n : Nat) : List LatKey :=
  (List.range n).flatMap
    (fun i => ((List.range n).filter (fun j => decide (i < j))).map (fun j => (i, j)))

/-- The sequence of map writes performed by the measurement loop:
for each pair `(i, j)`, `data[{i,j}] = rtt/2/100; data[{j,i}] = rtt/2/100`. -/
def buildEntries (n : Nat) (s : Nat → Nat → List Int) : List (LatKey × Int) :=
  (pairKeys n).flatMap
    (fun ij => [((ij.1, ij.2), latencyOf (s ij.1 ij.2)),
                ((ij.2, ij.1), latencyOf (s ij.1 ij.2))])

/-- The latency matrix assembled by the measurement loop, for `n` enumerated
cores and duration oracle `s`. -/
def buildMatrix (n : Nat) (s : Nat → Nat → List Int) : LatMap :=
  insertAll [] (buildEntries n s)

/-- Constant `CPU_SETSIZE` from `<sched.h>`: a `cpu_set_t` holds bits `0 .. 1023`. -/
def CPU_SETSIZE : Int := 1024

/-- glibc `CPU_ISSET`: false for an index outside `[0, CPU_SETSIZE)`,
otherwise the mask bit. -/
def cpuIsSet (mask : Nat → Bool) (i : Int) : Bool :=
  decide (0 ≤ i) && decide (i < CPU_SETSIZE) && mask i.toNat

/-- The index sequence of `for (int i = begin_core; i <= end_core; ++i)`. -/
def loopIndices (b e : Int) : List Int :=
  (List.range (e + 1 - b).toNat).map (fun (k : Nat) => b + (k : Int))

/-- The core enumerator: collect every index in `[b, e]` whose mask bit is
set. -/
def enumerate (mask : Nat → Bool) (b e : Int) : List Int :=
  (loopIndices b e).filter (cpuIsSet mask)

/-- Clamp of the `-b` value: `begin_core = std::max(std::stoi(optarg), 0)`. -/
def clampBegin (x : Int) : Int := max x 0

/-- Cap of the `-e` value: `end_core = std::min(std::stoi(optarg), CPU_SETSIZE)`. -/
def capEnd (x : Int) : Int := min x CPU_SETSIZE

/-- A concrete affinity mask containing exactly cores 2, 4 and 7. -/
def mask247 : Nat → Bool := fun n => n == 2 || n == 4 || n == 7

/-- A concrete duration oracle: every repetition of every pair measures
1000 ns. -/
def sOne : Nat → Nat → List Int := fun _ _ => [1000]

example : enumerate mask247 0 10 = [2, 4, 7] := by decide
example : enumerate mask247 5 10 = [7] := by decide
example : latencyOf [1000] = 5 := by decide
example : mapFind (buildMatrix 3 sOne) (1, 2) = some 5 := by decide
example : mapFind (buildMatrix 3 sOne) (2, 4) = none := by decide

/-! ### Lookup characterization of the assembled matrix -/

theorem mapFind_mapInsert (m : LatMap) (k : LatKey) (v : Int) (q : LatKey) :
    mapFind (mapInsert m k v) q = if q = k then some v else mapFind m q := by
  induction m with
  | nil => simp [mapInsert, mapFind]
  | cons kv t ih =>
      obtain ⟨k', v'⟩ := kv
      simp only [mapInsert]
      by_cases hkk : k = k'
      · subst hkk
        by_cases hq : q = k
        · simp [mapFind, hq]
        · simp [mapFind, hq]
      · simp only [if_neg hkk, mapFind, ih]
        by_cases hq : q = k'
        · have hqk : q ≠ k := by
            rw [hq]
            exact fun h => hkk h.symm
          have hk'k : k' ≠ k := fun h => hkk h.symm
          simp [hq, hqk, hk'k]
        · simp [hq]

theorem mapFind_insertAll_not_mem (kvs : List (LatKey × Int)) (m : LatMap)
    (q : LatKey) (h : ∀ v, (q, v) ∉ kvs) :
    mapFind (insertAll m kvs) q = mapFind m q := by
  induction kvs generalizing m with
  | nil => rfl
  | cons kv t ih =>
      have hq : q ≠ kv.1 := by
        intro hq
        apply h kv.2
        exact List.mem_cons.mpr (Or.inl (by rw [hq]))
      have := ih (mapInsert m kv.1 kv.2) (fun v hv => h v (List.mem_cons_of_mem _ hv))
      simp only [insertAll, List.foldl_cons] at *
      rw [this, mapFind_mapInsert, if_neg hq]

theorem mapFind_insertAll_mem (kvs : List (LatKey × Int)) (m : LatMap)
    (q : LatKey) (v : Int) (hmem : (q, v) ∈ kvs)
    (hfun : ∀ v', (q, v') ∈ kvs → v' = v) :
    mapFind (insertAll m kvs) q = some v := by
  induction kvs generalizing m with
  | nil => cases hmem
  | cons kv t ih =>
      by_cases ht : ∃ v', (q, v') ∈ t
      · obtain ⟨v', hv'⟩ := ht
        have hv'v : v' = v := hfun v' (List.mem_cons_of_mem _ hv')
        subst hv'v
        exact ih _ hv' (fun w hw => hfun w (List.mem_cons_of_mem _ hw))
      · have hkv : kv = (q, v) := by
          rcases List.mem_cons.mp hmem with h | h
          · exact h.symm
          · exact absurd ⟨v, h⟩ ht
        subst hkv
        have hnot : ∀ w, (q, w) ∉ t := fun w hw => ht ⟨w, hw⟩
        simp only [insertAll, List.foldl_cons]
        rw [show List.foldl (fun m kv => mapInsert m kv.1 kv.2) (mapInsert m q v) t =
              insertAll (mapInsert m q v) t from rfl,
            mapFind_insertAll_not_mem t _ q hnot, mapFind_mapInsert, if_pos rfl]

theorem mem_pairKeys (n a b : Nat) : (a, b) ∈ pairKeys n ↔ a < b ∧ b < n := by
  simp only [pairKeys, List.mem_flatMap, List.mem_map, List.mem_filter,
    List.mem_range, decide_eq_true_eq]
  constructor
  · rintro ⟨i, hi, j, ⟨⟨hj, hij⟩, heq⟩⟩
    obtain ⟨rfl, rfl⟩ := Prod.mk.injEq .. ▸ heq
    omega
  · rintro ⟨hab, hb⟩
    exact ⟨a, by omega, b, ⟨⟨hb, hab⟩, rfl⟩⟩

theorem mem_buildEntries (n : Nat) (s : Nat → Nat → List Int)
    (a b : Nat) (v : Int) :
    ((a, b), v) ∈ buildEntries n s ↔
      (a < b ∧ b < n ∧ v = latencyOf (s a b)) ∨
      (b < a ∧ a < n ∧ v = latencyOf (s b a)) := by
  simp only [buildEntries, List.mem_flatMap, List.mem_cons, List.not_mem_nil,
    or_false]
  constructor
  · rintro ⟨⟨i, j⟩, hij, h | h⟩ <;>
      · rw [Prod.mk.injEq, Prod.mk.injEq] at h
        obtain ⟨⟨rfl, rfl⟩, rfl⟩ := h
        rw [mem_pairKeys] at hij
        first
          | exact Or.inl ⟨hij.1, hij.2, rfl⟩
          | exact Or.inr ⟨hij.1, hij.2, rfl⟩
  · rintro (⟨hab, hb, rfl⟩ | ⟨hba, ha, rfl⟩)
    · exact ⟨(a, b), (mem_pairKeys ..).mpr ⟨hab, hb⟩, Or.inl rfl⟩
    · exact ⟨(b, a), (mem_pairKeys ..).mpr ⟨hba, ha⟩, Or.inr rfl⟩

/-- Master lemma: the value the assembled matrix holds at any key. -/
theorem mapFind_buildMatrix (n : Nat) (s : Nat → Nat → List Int) (a b : Nat) :
    mapFind (buildMatrix n s) (a, b) =
      if a < b ∧ b < n then some (latencyOf (s a b))
      else if b < a ∧ a < n then some (latencyOf (s b a))
      else none := by
  split_ifs with h1 h2
  · refine mapFind_insertAll_mem _ _ _ _
      ((mem_buildEntries ..).mpr (Or.inl ⟨h1.1, h1.2, rfl⟩)) ?_
    intro v' hv'
    rcases (mem_buildEntries ..).mp hv' with ⟨_, _, rfl⟩ | ⟨hba, _, _⟩
    · rfl
    · omega
  · refine mapFind_insertAll_mem _ _ _ _
      ((mem_buildEntries ..).mpr (Or.inr ⟨h2.1, h2.2, rfl⟩)) ?_
    intro v' hv'
    rcases (mem_buildEntries ..).mp hv' with ⟨hab, hb, _⟩ | ⟨_, _, rfl⟩
    · omega
    · rfl
  · rw [show buildMatrix n s = insertAll [] (buildEntries n s) from rfl,
      mapFind_insertAll_not_mem]
    · rfl
    · intro v hv
      rcases (mem_buildEntries ..).mp hv with ⟨hab, hb, _⟩ | ⟨hba, ha, _⟩ <;> omega

theorem mapFind_buildMatrix_diag (n : Nat) (s : Nat → Nat → List Int) (k : Nat) :
    mapFind (buildMatrix n s) (k, k) = none := by
  rw [mapFind_buildMatrix]
  simp

/-! ### The minimum fold of the timing loop -/

theorem foldl_min_le_init (ds : List Int) (a : Int) : ds.foldl min a ≤ a := by
  induction ds generalizing a with
  | nil => exact le_refl a
  | cons d t ih => exact le_trans (ih (min a d)) (min_le_left a d)

theorem foldl_min_le_mem (ds : List Int) (a d : Int) (h : d ∈ ds) :
    ds.foldl min a ≤ d := by
  induction ds generalizing a with
  | nil => cases h
  | cons d' t ih =>
      simp only [List.foldl_cons]
      rcases List.mem_cons.mp h with rfl | h
      · exact le_trans (foldl_min_le_init t (min a d)) (min_le_right a d)
      · exact ih (min a d') h

theorem foldl_min_mem_or_eq (ds : List Int) (a : Int) :
    ds.foldl min a = a ∨ ds.foldl min a ∈ ds := by
  induction ds generalizing a with
  | nil => exact Or.inl rfl
  | cons d t ih =>
      rcases ih (min a d) with h | h
      · rcases min_choice a d with hm | hm
        · exact Or.inl (by rw [List.foldl_cons, h, hm])
        · exact Or.inr (by rw [List.foldl_cons, h, hm]; exact List.mem_cons_self d t)
      · exact Or.inr (List.mem_cons_of_mem d h)

theorem measureRtt_mem (ds : List Int) (hne : ds ≠ [])
    (hub : ∀ d ∈ ds, d ≤ nsMax) : measureRtt ds ∈ ds := by
  rcases foldl_min_mem_or_eq ds nsMax with h | h
  · obtain ⟨d0, t, rfl⟩ := List.exists_cons_of_ne_nil hne
    have h1 : measureRtt (d0 :: t) ≤ d0 :=
      foldl_min_le_mem _ _ _ (List.mem_cons_self d0 t)
    have h2 : d0 ≤ nsMax := hub d0 (List.mem_cons_self d0 t)
    have h3 : measureRtt (d0 :: t) = d0 := by
      rw [show measureRtt (d0 :: t) = (d0 :: t).foldl min nsMax from rfl, h]
      rw [show measureRtt (d0 :: t) = (d0 :: t).foldl min nsMax from rfl, h] at h1
      omega
    rw [h3]
    exact List.mem_cons_self d0 t
  · exact h

theorem measureRtt_le (ds : List Int) (d : Int) (h : d ∈ ds) :
    measureRtt ds ≤ d := foldl_min_le_mem ds nsMax d h

theorem measureRtt_nonneg (ds : List Int) (h : ∀ d ∈ ds, 0 ≤ d) :
    0 ≤ measureRtt ds := by
  rcases foldl_min_mem_or_eq ds nsMax with hm | hm
  · rw [show measureRtt ds = ds.foldl min nsMax from rfl, hm]
    decide
  · exact h _ hm

theorem latencyOf_nonneg (ds : List Int) (h : ∀ d ∈ ds, 0 ≤ d) :
    0 ≤ latencyOf ds :=
  Int.tdiv_nonneg (Int.tdiv_nonneg (measureRtt_nonneg ds h) (by decide)) (by decide)

/-! ### The core enumerator -/

theorem mem_loopIndices (b e c : Int) : c ∈ loopIndices b e ↔ b ≤ c ∧ c ≤ e := by
  simp only [loopIndices, List.mem_map, List.mem_range]
  constructor
  · rintro ⟨k, hk, rfl⟩
    omega
  · rintro ⟨h1, h2⟩
    exact ⟨(c - b).toNat, by omega, by omega⟩

theorem mem_enumerate (mask : Nat → Bool) (b e c : Int) :
    c ∈ enumerate mask b e ↔ b ≤ c ∧ c ≤ e ∧ cpuIsSet mask c = true := by
  simp only [enumerate, List.mem_filter, mem_loopIndices]
  tauto

theorem enumerate_sorted (mask : Nat → Bool) (b e : Int) :
    List.Pairwise (· < ·) (enumerate mask b e) := by
  apply List.Pairwise.sublist (List.filter_sublist _)
  exact List.Pairwise.map _ (fun x y (h : x < y) => by omega)
    (List.pairwise_lt_range _)

theorem enumerate_in_mask_range (mask : Nat → Bool) (b e c : Int)
    (h : c ∈ enumerate mask b e) : 0 ≤ c ∧ c < CPU_SETSIZE := by
  have := ((mem_enumerate mask b e c).mp h).2.2
  simp only [cpuIsSet, Bool.and_eq_true, decide_eq_true_eq] at this
  exact ⟨this.1.1, this.1.2⟩

/-! ### The table renderer -/

/-- Effect of `std::setw(4)`: right-justify in a field of `w` characters, space fill
(no truncation when already wider). -/
def padLeft (w : Nat) (s : String) : String :=
  String.mk (List.replicate (w - s.length) ' ') ++ s

/-- The header row: `setw(4) << "CPU"` then, per enumerated core,
a space and `setw(4) << cpus[i]`. -/
def headerLine (cpus : List Int) : String :=
  padLeft 4 "CPU" ++ String.join (cpus.map (fun c => " " ++ padLeft 4 (toString c)))

/-- The inner column loop of a data row: for each `j`, print
`" " << setw(4) << data[{i, j}].count()`, threading the map because
`operator[]` default-inserts absent keys. -/
def renderCells (m : LatMap) (i : Nat) (js : List Nat) : String × LatMap :=
  match js with
  | [] => ("", m)
  | j :: t =>
      let p := mapIndex m (i, j)
      let r := renderCells p.2 i t
      (" " ++ padLeft 4 (toString p.1) ++ r.1, r.2)

/-- One data row: `setw(4) << cpus[i]` then the column loop. -/
def renderRow (cpus : List Int) (m : LatMap) (i : Nat) : String × LatMap :=
  let c := renderCells m i (List.range cpus.length)
  (padLeft 4 (toString (cpus.getD i 0)) ++ c.1, c.2)

/-- The outer row loop. -/
def renderRowsAux (cpus : List Int) (m : LatMap) : List Nat → List String × LatMap
  | [] => ([], m)
  | i :: t =>
      let r := renderRow cpus m i
      let rest := renderRowsAux cpus r.2 t
      (r.1 :: rest.1, rest.2)

/-- The whole table: header line then one row per enumerated core.  Returns
the printed lines and the final state of the (mutated) map. -/
def renderTable (cpus : List Int) (m : LatMap) : List String × LatMap :=
  let r := renderRowsAux cpus m (List.range cpus.length)
  (headerLine cpus :: r.1, r.2)

/-- The value a cell displays, as a function of the matrix as it was before
rendering started: the stored entry, or the default-inserted zero. -/
def cellOf (m : LatMap) (i j : Nat) : Int := (mapFind m (i, j)).getD 0

/-- Specification form of one data row (pure in the pre-rendering map). -/
def rowString (cpus : List Int) (m : LatMap) (i : Nat) : String :=
  padLeft 4 (toString (cpus.getD i 0)) ++
    String.join ((List.range cpus.length).map
      (fun j => " " ++ padLeft 4 (toString (cellOf m i j))))

/-- The four `set ...` directive lines printed before the data block in
plot mode. -/
def directiveLines : List String :=
  ["set title \"Inter-core one-way data latency between CPU cores\"",
   "set xlabel \"CPU\"",
   "set ylabel \"CPU\"",
   "set cblabel \"Latency (ns)\""]

/-- The single plot-command line printed after the data block. -/
def plotCmdLine : String :=
  "plot '$data' matrix rowheaders columnheaders using 2:1:3 with image"

/-- Everything the program prints to stdout, as lines: the table, wrapped
in the gnuplot scaffolding when `-p` was given. -/
def outputLines (plot : Bool) (cpus : List Int) (m : LatMap) : List String :=
  (if plot then directiveLines ++ ["$data << EOD"] else []) ++
    (renderTable cpus m).1 ++
    (if plot then ["EOD", plotCmdLine] else [])

example : headerLine [0, 1] = " CPU    0    1" := by decide
example : (renderTable [0, 1] (buildMatrix 2 sOne)).1 =
    [" CPU    0    1", "   0    0    5", "   1    5    0"] := by decide

/-! ### Rendering refines the pure row description -/

/-- Holds when `m'` extends `m₀` only by default-inserted zero entries. -/
def MapExt (m₀ m' : LatMap) : Prop :=
  ∀ k, mapFind m' k = mapFind m₀ k ∨ (mapFind m₀ k = none ∧ mapFind m' k = some 0)

theorem mapExt_refl (m : LatMap) : MapExt m m := fun _ => Or.inl rfl

theorem mapIndex_fst (m₀ m' : LatMap) (k : LatKey) (hext : MapExt m₀ m') :
    (mapIndex m' k).1 = (mapFind m₀ k).getD 0 := by
  unfold mapIndex
  rcases hext k with h | ⟨h0, h1⟩
  · rw [← h]
    cases hf : mapFind m' k <;> simp
  · rw [h1, h0]
    rfl

theorem mapIndex_mapExt (m₀ m' : LatMap) (k : LatKey) (hext : MapExt m₀ m') :
    MapExt m₀ (mapIndex m' k).2 := by
  unfold mapIndex
  cases hf : mapFind m' k with
  | some v => exact hext
  | none =>
      intro q
      rw [mapFind_mapInsert]
      by_cases hq : q = k
      · subst hq
        rcases hext q with h | ⟨h0, h1⟩
        · exact Or.inr ⟨by rw [← h, hf], by rw [if_pos rfl]⟩
        · rw [hf] at h1
          cases h1
      · rw [if_neg hq]
        exact hext q

theorem mapIndex_find_self (m₀ m' : LatMap) (k : LatKey) (hext : MapExt m₀ m') :
    mapFind (mapIndex m' k).2 k = some ((mapFind m₀ k).getD 0) := by
  unfold mapIndex
  cases hf : mapFind m' k with
  | some v =>
      rcases hext k with h | ⟨h0, h1⟩
      · rw [hf] at h
        rw [hf, ← h]
        rfl
      · rw [hf] at h1
        cases h1
        rw [hf, h0]
        rfl
  | none =>
      rcases hext k with h | ⟨h0, h1⟩
      · rw [hf] at h
        rw [mapFind_mapInsert, if_pos rfl, ← h]
        rfl
      · rw [hf] at h1
        cases h1

theorem mapIndex_persist (m' : LatMap) (k q : LatKey) (v : Int)
    (h : mapFind m' q = some v) : mapFind (mapIndex m' k).2 q = some v := by
  unfold mapIndex
  cases hf : mapFind m' k with
  | some w => exact h
  | none =>
      rw [mapFind_mapInsert]
      by_cases hq : q = k
      · subst hq
        rw [hf] at h
        cases h
      · rw [if_neg hq]
        exact h

theorem foldl_append_init (l : List String) (s : String) :
    List.foldl (fun r t => r ++ t) s l = s ++ List.foldl (fun r t => r ++ t) "" l := by
  induction l generalizing s with
  | nil => simp
  | cons b t ih =>
      simp only [List.foldl_cons]
      rw [ih (s ++ b), ih ("" ++ b)]
      simp [String.append_assoc]

theorem stringJoin_cons (a : String) (l : List String) :
    String.join (a :: l) = a ++ String.join l := by
  simp only [String.join, List.foldl_cons]
  rw [foldl_append_init l ("" ++ a)]
  simp

theorem renderCells_spec (js : List Nat) (m₀ m' : LatMap) (i : Nat)
    (hext : MapExt m₀ m') :
    (renderCells m' i js).1 =
      String.join (js.map (fun j => " " ++ padLeft 4 (toString (cellOf m₀ i j)))) ∧
      MapExt m₀ (renderCells m' i js).2 := by
  induction js generalizing m' with
  | nil => exact ⟨rfl, hext⟩
  | cons j t ih =>
      have hfst := mapIndex_fst m₀ m' (i, j) hext
      have hext' := mapIndex_mapExt m₀ m' (i, j) hext
      obtain ⟨h1, h2⟩ := ih (mapIndex m' (i, j)).2 hext'
      constructor
      · rw [show (renderCells m' i (j :: t)).1 =
              " " ++ padLeft 4 (toString (mapIndex m' (i, j)).1) ++
                (renderCells (mapIndex m' (i, j)).2 i t).1 from rfl, hfst, h1,
            List.map_cons, stringJoin_cons]
        simp [cellOf]
      · exact h2

theorem renderCells_persist (js : List Nat) (m' : LatMap) (i : Nat)
    (q : LatKey) (v : Int) (h : mapFind m' q = some v) :
    mapFind (renderCells m' i js).2 q = some v := by
  induction js generalizing m' with
  | nil => exact h
  | cons j t ih => exact ih (mapIndex m' (i, j)).2 (mapIndex_persist m' (i, j) q v h)

theorem renderCells_visited (js : List Nat) (m₀ m' : LatMap) (i j : Nat)
    (hext : MapExt m₀ m') (hj : j ∈ js) :
    mapFind (renderCells m' i js).2 (i, j) = some (cellOf m₀ i j) := by
  induction js generalizing m' with
  | nil => cases hj
  | cons j' t ih =>
      rcases List.mem_cons.mp hj with rfl | hj'
      · exact renderCells_persist t _ i (i, j) _
          (mapIndex_find_self m₀ m' (i, j) hext)
      · exact ih (mapIndex m' (i, j')).2 (mapIndex_mapExt m₀ m' (i, j') hext) hj'

theorem renderRow_spec (cpus : List Int) (m₀ m' : LatMap) (i : Nat)
    (hext : MapExt m₀ m') :
    (renderRow cpus m' i).1 = rowString cpus m₀ i ∧
      MapExt m₀ (renderRow cpus m' i).2 := by
  obtain ⟨h1, h2⟩ := renderCells_spec (List.range cpus.length) m₀ m' i hext
  exact ⟨by rw [show (renderRow cpus m' i).1 =
      padLeft 4 (toString (cpus.getD i 0)) ++
        (renderCells m' i (List.range cpus.length)).1 from rfl, h1]; rfl, h2⟩

theorem renderRowsAux_spec (is : List Nat) (cpus : List Int) (m₀ m' : LatMap)
    (hext : MapExt m₀ m') :
    (renderRowsAux cpus m' is).1 = is.map (rowString cpus m₀) ∧
      MapExt m₀ (renderRowsAux cpus m' is).2 := by
  induction is generalizing m' with
  | nil => exact ⟨rfl, hext⟩
  | cons i t ih =>
      obtain ⟨h1, h2⟩ := renderRow_spec cpus m₀ m' i hext
      obtain ⟨h3, h4⟩ := ih (renderRow cpus m' i).2 h2
      refine ⟨?_, h4⟩
      simp only [renderRowsAux, List.map_cons]
      rw [h1, h3]

theorem renderRowsAux_persist (is : List Nat) (cpus : List Int) (m' : LatMap)
    (q : LatKey) (v : Int) (h : mapFind m' q = some v) :
    mapFind (renderRowsAux cpus m' is).2 q = some v := by
  induction is generalizing m' with
  | nil => exact h
  | cons i t ih =>
      exact ih (renderRow cpus m' i).2
        (renderCells_persist (List.range cpus.length) m' i q v h)

theorem renderRowsAux_visited (is : List Nat) (cpus : List Int)
    (m₀ m' : LatMap) (i j : Nat) (hext : MapExt m₀ m') (hi : i ∈ is)
    (hj : j < cpus.length) :
    mapFind (renderRowsAux cpus m' is).2 (i, j) = some (cellOf m₀ i j) := by
  induction is generalizing m' with
  | nil => cases hi
  | cons i' t ih =>
      rcases List.mem_cons.mp hi with rfl | hi'
      · exact renderRowsAux_persist t cpus _ (i, j) _
          (renderCells_visited (List.range cpus.length) m₀ m' i j hext
            (List.mem_range.mpr hj))
      · exact ih (renderRow cpus m' i').2 (renderRow_spec cpus m₀ m' i' hext).2 hi'

/-- Master rendering lemma: the printed lines are the header followed by the
pure row strings, and afterwards the map holds, at every visited key, the
displayed value (a stored entry, or the default-inserted zero). -/
theorem renderTable_spec (cpus : List Int) (m₀ : LatMap) :
    (renderTable cpus m₀).1 =
      headerLine cpus :: (List.range cpus.length).map (rowString cpus m₀) ∧
    ∀ i j, i < cpus.length → j < cpus.length →
      mapFind (renderTable cpus m₀).2 (i, j) = some (cellOf m₀ i j) := by
  obtain ⟨h1, _⟩ :=
    renderRowsAux_spec (List.range cpus.length) cpus m₀ m₀ (mapExt_refl m₀)
  constructor
  · rw [show (renderTable cpus m₀).1 =
      headerLine cpus :: (renderRowsAux cpus m₀ (List.range cpus.length)).1 from rfl, h1]
  · intro i j hi hj
    exact renderRowsAux_visited (List.range cpus.length) cpus m₀ m₀ i j
      (mapExt_refl m₀) (List.mem_range.mpr hi) hj

/-! ### Command-line parsing and the top-level control flow -/

/-- The four CLI settings, with their initializers from `main`:
`nsamples = 1000`, `begin_core = 0`, `end_core = CPU_SETSIZE`,
`plot = false`. -/
structure Config where
  plot : Bool
  nsamples : Int
  begin_core : Int
  end_core : Int
deriving DecidableEq

/-- Initial values of the option variables in `main`. -/
def defaultConfig : Config :=
  { plot := false, nsamples := 1000, begin_core := 0, end_core := CPU_SETSIZE }

/-- C whitespace as skipped by `std::stoi` (via `strtol`/`isspace`). -/
def isSpaceChar (c : Char) : Bool :=
  c = ' ' || c = '\t' || c = '\n' || c = '\r' || c = '\x0b' || c = '\x0c'

/-- Accumulate a decimal digit sequence into an integer. -/
def digitsToInt (ds : List Char) : Int :=
  ds.foldl (fun a c => a * 10 + ((c.toNat - 48 : Nat) : Int)) 0

/-- Parse a leading digit run; `none` when there is none. -/
def parseDigits (cs : List Char) : Option Int :=
  let ds := cs.takeWhile Char.isDigit
  if ds.isEmpty then none else some (digitsToInt ds)

/-- Model of `std::stoi`: skip whitespace, optional sign, leading digits (trailing
characters ignored); `none` models the `std::invalid_argument` throw when no
digits are found.  (The `std::out_of_range` overflow throw is not modelled;
every value used in a theorem is small.) -/
def stoi (s : String) : Option Int :=
  match s.data.dropWhile isSpaceChar with
  | '-' :: rest => (parseDigits rest).map (fun v => -v)
  | '+' :: rest => parseDigits rest
  | cs => parseDigits cs

/-- Result of scanning one option cluster: continue (possibly having
consumed the following argv element as an option argument), an unrecognized
option / missing argument (`getopt` returns `'?'`), or an uncaught
`std::stoi` exception. -/
inductive TokStep where
  | cont (cfg : Config) (consumedNext : Bool)
  | err
  | thrown
deriving DecidableEq

/-- Scan the characters of one `-xyz` option cluster against the optstring
`"b:e:ps:"`.  An option letter that takes an argument uses the remainder of
the cluster if non-empty, otherwise the next argv element. -/
def procChars (cfg : Config) : List Char → List String → TokStep
  | [], _ => .cont cfg false
  | 'p' :: t, rest => procChars { cfg with plot := true } t rest
  | 's' :: t, rest =>
      match t with
      | [] =>
          match rest with
          | [] => .err
          | a :: _ =>
              match stoi a with
              | none => .thrown
              | some v => .cont { cfg with nsamples := v } true
      | _ =>
          match stoi (String.mk t) with
          | none => .thrown
          | some v => .cont { cfg with nsamples := v } false
  | 'b' :: t, rest =>
      match t with
      | [] =>
          match rest with
          | [] => .err
          | a :: _ =>
              match stoi a with
              | none => .thrown
              | some v => .cont { cfg with begin_core := clampBegin v } true
      | _ =>
          match stoi (String.mk t) with
          | none => .thrown
          | some v => .cont { cfg with begin_core := clampBegin v } false
  | 'e' :: t, rest =>
      match t with
      | [] =>
          match rest with
          | [] => .err
          | a :: _ =>
              match stoi a with
              | none => .thrown
              | some v => .cont { cfg with end_core := capEnd v } true
      | _ =>
          match stoi (String.mk t) with
          | none => .thrown
          | some v => .cont { cfg with end_core := capEnd v } false
  | _ :: _, _ => .err

/-- Outcome of the option-processing phase of `main`: a configuration, the
usage/exit-1 path (unrecognized option, missing option argument, or a
leftover non-option argument making `optind != argc`), or an uncaught
`std::stoi` exception. -/
inductive ParseResult where
  | ok (cfg : Config)
  | usage
  | stoiFailure
deriving DecidableEq

/-- The `while (getopt(...))` loop (GNU behaviour): option clusters are
processed, non-option arguments are skipped and remembered (they are
permuted to the end), `--` ends the scan; afterwards `optind != argc`
exactly when a non-option argument was seen. -/
def parseLoop (cfg : Config) : List String → Bool → ParseResult
  | [], sawPos => if sawPos then .usage else .ok cfg
  | tok :: rest, sawPos =>
      match tok.data with
      | ['-', '-'] => if sawPos ∨ rest ≠ [] then .usage else .ok cfg
      | '-' :: c :: cs =>
          (match procChars cfg (c :: cs) rest with
           | .cont cfg' true =>
               (match rest with
                | [] => .usage   -- unreachable: nothing was there to consume
                | _ :: rest' => parseLoop cfg' rest' sawPos)
           | .cont cfg' false => parseLoop cfg' rest sawPos
           | .err => .usage
           | .thrown => .stoiFailure)
      | _ => parseLoop cfg rest true

/-- Process the argv tail (past the program name). -/
def parseArgs (args : List String) : ParseResult :=
  parseLoop defaultConfig args false

/-- The usage text printed to `std::cerr`, as lines. -/
def usageLines : List String :=
  ["c2clat 1.0.1 © 2020 Erik Rigtorp <erik@rigtorp.se>",
   "usage: c2clat [-p] [-s number_of_samples] [-b begin_core] [-e end_core]",
   "",
   "Plot results using gnuplot:",
   "c2clat -p | gnuplot -p"]

/-- Output of `perror("sched_getaffinity")`: the OS error line on `std::cerr`. -/
def schedGetaffinityErr (osErr : String) : List String :=
  ["sched_getaffinity: " ++ osErr]

/-- How a run of the program ends: normal termination with an exit code,
stdout lines and stderr lines, or abnormal termination via an uncaught
exception (`std::terminate`). -/
inductive RunOutcome where
  | abnormal
  | exited (code : Int) (stdoutLines stderrLines : List String)
deriving DecidableEq

/-- The whole of `main`, parameterized by the argv tail, the result of
`sched_getaffinity` (`none` = the call failed, with `osErr` the OS error
text), and the duration oracle for the measurement loop. -/
def mainRun (args : List String) (affinity : Option (Nat → Bool))
    (s : Nat → Nat → List Int) (osErr : String) : RunOutcome :=
  match parseArgs args with
  | .stoiFailure => .abnormal
  | .usage => .exited 1 [] usageLines
  | .ok cfg =>
      match affinity with
      | none => .exited 1 [] (schedGetaffinityErr osErr)
      | some mask =>
          let cpus := enumerate mask cfg.begin_core cfg.end_core
          .exited 0 (outputLines cfg.plot cpus (buildMatrix cpus.length s)) []

example : parseArgs ["-z"] = .usage := by decide
example : parseArgs ["stray"] = .usage := by decide
example : parseArgs ["-s", "foo"] = .stoiFailure := by decide
example : parseArgs ["-s", "500"] =
    .ok { defaultConfig with nsamples := 500 } := by decide
example : parseArgs ["-p", "-b", "2", "-e", "7"] =
    .ok { plot := true, nsamples := 1000, begin_core := 2, end_core := 7 } := by decide
example : parseArgs ["-ps2000"] =
    .ok { defaultConfig with plot := true, nsamples := 2000 } := by decide
example : parseArgs ["-b", "-3"] =
    .ok { defaultConfig with begin_core := 0 } := by decide
example : parseArgs ["-e", "5000"] =
    .ok { defaultConfig with end_core := 1024 } := by decide
example : parseArgs ["--"] = .ok defaultConfig := by decide
example : parseArgs ["--", "x"] = .usage := by decide
example : parseArgs ["-s", "foo", "bar"] = .stoiFailure := by decide

/-! ### The claims -/

/-- C1: for every measured pair of distinct enumerated cores and every
`nsamples ≥ 1` (a non-empty sample list), the recorded one-way latency is
the minimum round-trip duration over the repetitions divided by 2 and then
by 100 with exact integer division; with a single sample it is that
sample's duration / 2 / 100, and the value is non-negative. -/
theorem claim_C1_min_latency (n : Nat) (s : Nat → Nat → List Int) (i j : Nat)
    (hij : i < j) (hjn : j < n) (hne : s i j ≠ [])
    (hb : ∀ d ∈ s i j, 0 ≤ d ∧ d ≤ nsMax) :
    measureRtt (s i j) ∈ s i j ∧
    (∀ d ∈ s i j, measureRtt (s i j) ≤ d) ∧
    mapFind (buildMatrix n s) (i, j) =
      some (((measureRtt (s i j)).tdiv 2).tdiv 100) ∧
    0 ≤ ((measureRtt (s i j)).tdiv 2).tdiv 100 ∧
    (∀ d : Int, 0 ≤ d → d ≤ nsMax →
      latencyOf [d] = (d.tdiv 2).tdiv 100 ∧ 0 ≤ latencyOf [d]) := by
  have hub : ∀ d ∈ s i j, d ≤ nsMax := fun d hd => (hb d hd).2
  have hnn : ∀ d ∈ s i j, 0 ≤ d := fun d hd => (hb d hd).1
  refine ⟨measureRtt_mem (s i j) hne hub, fun d hd => measureRtt_le _ d hd, ?_, ?_, ?_⟩
  · rw [mapFind_buildMatrix, if_pos ⟨hij, hjn⟩]
    rfl
  · exact Int.tdiv_nonneg (Int.tdiv_nonneg (measureRtt_nonneg _ hnn) (by decide))
      (by decide)
  · intro d hd0 hdM
    have hmin : measureRtt [d] = d := by
      rw [show measureRtt [d] = min nsMax d from rfl]
      exact min_eq_right hdM
    constructor
    · rw [show latencyOf [d] = ((measureRtt [d]).tdiv 2).tdiv 100 from rfl, hmin]
    · exact latencyOf_nonneg [d] (by intro x hx; rw [List.mem_singleton] at hx; omega)

/-- C1 witness at a concrete input. -/
theorem claim_C1_min_latency_witness :
    mapFind (buildMatrix 2 sOne) (0, 1) =
      some (((measureRtt (sOne 0 1)).tdiv 2).tdiv 100) :=
  (claim_C1_min_latency 2 sOne 0 1 (by decide) (by decide) (by decide)
    (by
      intro d hd
      rw [show sOne 0 1 = [1000] from rfl, List.mem_singleton] at hd
      subst hd
      exact ⟨by decide, by decide⟩)).2.2.1

/-- C2: the enumerator returns exactly the strictly ascending list of core
ids both set in the affinity mask and within `[begin, end]`; on the mask
`{2, 4, 7}` it yields `[2, 4, 7]` for range `[0, 10]` and `[7]` for
range `[5, 10]`. -/
theorem claim_C2_enumerator (mask : Nat → Bool) (b e c : Int) :
    (c ∈ enumerate mask b e ↔ b ≤ c ∧ c ≤ e ∧ cpuIsSet mask c = true) ∧
    List.Pairwise (· < ·) (enumerate mask b e) ∧
    enumerate mask247 0 10 = [2, 4, 7] ∧
    enumerate mask247 5 10 = [7] :=
  ⟨mem_enumerate mask b e c, enumerate_sorted mask b e, by decide, by decide⟩

/-- C3: after all pairs are measured, each unordered pair of distinct
enumerated cores (as positions in the enumerated list) has both directed
matrix entries present, equal and non-negative, and the measurement loop
writes no diagonal entry. -/
theorem claim_C3_symmetry (cpus : List Int) (s : Nat → Nat → List Int)
    (hnn : ∀ i j d, d ∈ s i j → 0 ≤ d) :
    (∀ i j, i < cpus.length → j < cpus.length → i ≠ j →
      ∃ v, 0 ≤ v ∧
        mapFind (buildMatrix cpus.length s) (i, j) = some v ∧
        mapFind (buildMatrix cpus.length s) (j, i) = some v) ∧
    (∀ k, mapFind (buildMatrix cpus.length s) (k, k) = none) := by
  constructor
  · intro i j hi hj hij
    rcases Nat.lt_or_ge i j with h | h
    · refine ⟨latencyOf (s i j), latencyOf_nonneg _ (fun d hd => hnn i j d hd), ?_, ?_⟩
      · rw [mapFind_buildMatrix, if_pos ⟨h, hj⟩]
      · rw [mapFind_buildMatrix, if_neg (by omega), if_pos ⟨h, hj⟩]
    · have h' : j < i := by omega
      refine ⟨latencyOf (s j i), latencyOf_nonneg _ (fun d hd => hnn j i d hd), ?_, ?_⟩
      · rw [mapFind_buildMatrix, if_neg (by omega), if_pos ⟨h', hi⟩]
      · rw [mapFind_buildMatrix, if_pos ⟨h', hi⟩]
  · exact mapFind_buildMatrix_diag cpus.length s

/-- C3 witness at a concrete input. -/
theorem claim_C3_symmetry_witness :
    mapFind (buildMatrix (List.length [(2 : Int), 4]) sOne) (2, 2) = none :=
  (claim_C3_symmetry [2, 4] sOne
    (by
      intro i j d hd
      rw [show sOne i j = [1000] from rfl, List.mem_singleton] at hd
      omega)).2 2

/-- C4 counterexample: with enumerated cores `[2, 4, 7]` the matrix does NOT
hold keys built from the core ids — `(2, 4)` and `(4, 2)` are absent — while
it does hold the position-pair key `(0, 1)`. -/
theorem claim_C4_counterexample :
    enumerate mask247 0 10 = [2, 4, 7] ∧
    mapFind (buildMatrix (enumerate mask247 0 10).length sOne) (2, 4) = none ∧
    mapFind (buildMatrix (enumerate mask247 0 10).length sOne) (4, 2) = none ∧
    mapFind (buildMatrix (enumerate mask247 0 10).length sOne) (0, 1) = some 5 :=
  ⟨by decide, by decide, by decide, by decide⟩

/-- C4 amended: the matrix is keyed by pairs of positions in the enumerated
core list (the loop indices), not by the core id values: the pair at
positions `i < j` is recorded at keys `(i, j)` and `(j, i)`, and every
present key is a pair of distinct positions below the core count. -/
theorem claim_C4_amended (n : Nat) (s : Nat → Nat → List Int) (i j : Nat)
    (hij : i < j) (hjn : j < n) :
    mapFind (buildMatrix n s) (i, j) = some (latencyOf (s i j)) ∧
    mapFind (buildMatrix n s) (j, i) = some (latencyOf (s i j)) ∧
    (∀ p : LatKey, ∀ v : Int, mapFind (buildMatrix n s) p = some v →
      p.1 < n ∧ p.2 < n ∧ p.1 ≠ p.2) := by
  refine ⟨?_, ?_, ?_⟩
  · rw [mapFind_buildMatrix, if_pos ⟨hij, hjn⟩]
  · rw [mapFind_buildMatrix, if_neg (by omega), if_pos ⟨hij, hjn⟩]
  · rintro ⟨a, b⟩ v h
    rw [mapFind_buildMatrix] at h
    split_ifs at h with h1 h2
    · omega
    · omega

/-- C4 amended witness at a concrete input. -/
theorem claim_C4_amended_witness :
    mapFind (buildMatrix 3 sOne) (0, 1) = some (latencyOf (sOne 0 1)) :=
  (claim_C4_amended 3 sOne 0 1 (by decide) (by decide)).1

/-- C5 counterexample: in plot mode the output does not begin with exactly
three directive lines — the fourth line (index 3) is still a `set` directive
(the colorbar label), and the `$data << EOD` marker is the fifth line. -/
theorem claim_C5_counterexample :
    (outputLines true [] [])[3]? = some "set cblabel \"Latency (ns)\"" ∧
    (outputLines true [] [])[3]? ≠ some "$data << EOD" ∧
    (outputLines true [] [])[4]? = some "$data << EOD" :=
  ⟨by decide, by decide, by decide⟩

/-- C5 amended: in plot mode the output is exactly FOUR directive lines,
the literal `$data << EOD` line, the table, the literal `EOD` line, and one
plot-command line — for every enumerated core list. -/
theorem claim_C5_amended (cpus : List Int) (m : LatMap) :
    outputLines true cpus m =
      directiveLines ++ ["$data << EOD"] ++ (renderTable cpus m).1 ++
        ["EOD", plotCmdLine] ∧
    directiveLines.length = 4 ∧
    (outputLines true cpus m).take 4 = directiveLines ∧
    (outputLines true cpus m)[4]? = some "$data << EOD" ∧
    (renderTable cpus m).1.length = cpus.length + 1 := by
  refine ⟨by simp [outputLines], rfl, rfl, rfl, ?_⟩
  rw [(renderTable_spec cpus m).1]
  simp

/-- C6 counterexample: `-e 2000` is capped to `CPU_SETSIZE = 1024`, which is
NOT the platform's maximum addressable core index (`1023`); the inclusive
enumeration loop then visits index `1024`, beyond the platform maximum. -/
theorem claim_C6_counterexample :
    capEnd 2000 = CPU_SETSIZE ∧
    CPU_SETSIZE - 1 < capEnd 2000 ∧
    capEnd 2000 ∈ loopIndices 0 (capEnd 2000) := by
  refine ⟨by decide, by decide, ?_⟩
  rw [mem_loopIndices]
  exact ⟨by decide, le_refl _⟩

/-- C6 amended: sample count defaults to 1000; the lower bound defaults to 0
and `-b` is clamped to `≥ 0`; the upper bound defaults to `CPU_SETSIZE`
(1024) and `-e` is capped at `CPU_SETSIZE` — one more than the maximum
addressable core index — so the loop may test index 1024, but the
out-of-range membership test is false there and no enumerated core ever
exceeds index 1023. -/
theorem claim_C6_amended (x : Int) (v : String) (nv : Int)
    (hv : stoi v = some nv) (mask : Nat → Bool) (b e c : Int)
    (hc : c ∈ enumerate mask b e) :
    defaultConfig.nsamples = 1000 ∧
    defaultConfig.begin_core = 0 ∧
    defaultConfig.end_core = CPU_SETSIZE ∧
    0 ≤ clampBegin x ∧
    capEnd x ≤ CPU_SETSIZE ∧
    parseArgs ["-b", v] = .ok { defaultConfig with begin_core := clampBegin nv } ∧
    parseArgs ["-e", v] = .ok { defaultConfig with end_core := capEnd nv } ∧
    0 ≤ c ∧ c < CPU_SETSIZE := by
  refine ⟨rfl, rfl, rfl, le_max_right x 0, min_le_right x CPU_SETSIZE, ?_, ?_, ?_, ?_⟩
  · simp [parseArgs, parseLoop, procChars, hv]
  · simp [parseArgs, parseLoop, procChars, hv]
  · exact (enumerate_in_mask_range mask b e c hc).1
  · exact (enumerate_in_mask_range mask b e c hc).2

/-- C6 amended witness at a concrete input. -/
theorem claim_C6_amended_witness :
    parseArgs ["-e", "7"] = .ok { defaultConfig with end_core := capEnd 7 } :=
  (claim_C6_amended (-5) "7" 7 (by decide) mask247 0 10 2 (by decide)).2.2.2.2.2.2.1

/-- C7 counterexample: the command line `-s foo bar` contains a stray
positional argument (`bar`), yet the program does not print the usage text
and exit 1 — `std::stoi("foo")` throws first and the run ends abnormally. -/
theorem claim_C7_counterexample :
    mainRun ["-s", "foo", "bar"] (some mask247) sOne "err" = .abnormal ∧
    mainRun ["-s", "foo", "bar"] (some mask247) sOne "err" ≠
      .exited 1 [] usageLines :=
  ⟨by decide, by decide⟩

/-- C7 amended: whenever the option scan reports an unrecognized flag or a
leftover positional argument, the program prints the usage text to stderr
and exits 1 with no table on stdout (e.g. for `-z` and for a stray word);
when parsing succeeds but the affinity query fails, it prints the OS error
and exits 1 with no table; when both succeed it prints the table and exits
0. -/
theorem claim_C7_amended (args : List String) (aff : Option (Nat → Bool))
    (s : Nat → Nat → List Int) (osErr : String) :
    (parseArgs args = .usage → mainRun args aff s osErr = .exited 1 [] usageLines) ∧
    parseArgs ["-z"] = .usage ∧
    parseArgs ["stray"] = .usage ∧
    (∀ cfg, parseArgs args = .ok cfg → aff = none →
      mainRun args aff s osErr = .exited 1 [] (schedGetaffinityErr osErr)) ∧
    (∀ cfg mask, parseArgs args = .ok cfg → aff = some mask →
      mainRun args aff s osErr =
        .exited 0 (outputLines cfg.plot (enumerate mask cfg.begin_core cfg.end_core)
          (buildMatrix (enumerate mask cfg.begin_core cfg.end_core).length s)) []) := by
  refine ⟨?_, by decide, by decide, ?_, ?_⟩
  · intro h
    simp [mainRun, h]
  · intro cfg hcfg haff
    simp [mainRun, hcfg, haff]
  · intro cfg mask hcfg haff
    simp [mainRun, hcfg, haff]

/-- C7 amended witness at a concrete input. -/
theorem claim_C7_amended_witness :
    mainRun ["-z"] none sOne "E" = .exited 1 [] usageLines :=
  (claim_C7_amended ["-z"] none sOne "E").1 (by decide)

/-- C8: the table is a header line — `"CPU"` right-justified in 4 characters
then each enumerated core id right-justified in 4 characters preceded by a
space, in enumeration order — followed by one row per core carrying its id
and its whole-nanosecond latency to every core in the same column order;
with cores `[0, 1]` the header is exactly `" CPU    0    1"`. -/
theorem claim_C8_table_format (cpus : List Int) (m : LatMap) :
    (renderTable cpus m).1 =
      headerLine cpus :: (List.range cpus.length).map (rowString cpus m) ∧
    headerLine cpus =
      padLeft 4 "CPU" ++
        String.join (cpus.map (fun c => " " ++ padLeft 4 (toString c))) ∧
    (∀ i, rowString cpus m i =
      padLeft 4 (toString (cpus.getD i 0)) ++
        String.join ((List.range cpus.length).map
          (fun j => " " ++ padLeft 4 (toString (cellOf m i j))))) ∧
    headerLine [0, 1] = " CPU    0    1" ∧
    (renderTable [0, 1] (buildMatrix 2 sOne)).1 =
      [" CPU    0    1", "   0    0    5", "   1    5    0"] :=
  ⟨(renderTable_spec cpus m).1, rfl, fun _ => rfl, by decide, by decide⟩

/-- C9: the diagonal cell printed in each core's row is exactly 0 ns: the
rendering lookup `data[{i, i}]` default-inserts a zero-valued duration, so
the cell shows `0` and after rendering the map holds every diagonal key with
value 0 (which the measurement loop had left unset). -/
theorem claim_C9_diagonal_default (cpus : List Int) (s : Nat → Nat → List Int)
    (i : Nat) (hi : i < cpus.length) :
    mapFind (buildMatrix cpus.length s) (i, i) = none ∧
    cellOf (buildMatrix cpus.length s) i i = 0 ∧
    " " ++ padLeft 4 (toString (cellOf (buildMatrix cpus.length s) i i)) = "    0" ∧
    mapFind (renderTable cpus (buildMatrix cpus.length s)).2 (i, i) = some 0 := by
  have hdiag : mapFind (buildMatrix cpus.length s) (i, i) = none :=
    mapFind_buildMatrix_diag cpus.length s i
  have hcell : cellOf (buildMatrix cpus.length s) i i = 0 := by
    rw [show cellOf (buildMatrix cpus.length s) i i =
      (mapFind (buildMatrix cpus.length s) (i, i)).getD 0 from rfl, hdiag]
    rfl
  refine ⟨hdiag, hcell, by rw [hcell]; rfl, ?_⟩
  rw [(renderTable_spec cpus (buildMatrix cpus.length s)).2 i i hi hi, hcell]

/-- C9 witness at a concrete input. -/
theorem claim_C9_diagonal_default_witness :
    mapFind (renderTable [(2 : Int), 4] (buildMatrix (List.length [(2 : Int), 4]) sOne)).2
      (0, 0) = some 0 :=
  (claim_C9_diagonal_default [2, 4] sOne 0 (by decide)).2.2.2

/-- C10: a `-s`, `-b` or `-e` value that `std::stoi` cannot parse makes the
program terminate abnormally through the uncaught exception, without
printing the usage text — a path distinct from the unrecognized-flag path
(which yields the usage/exit-1 outcome). -/
theorem claim_C10_stoi_throw (v : String) (hv : stoi v = none)
    (aff : Option (Nat → Bool)) (s : Nat → Nat → List Int) (osErr : String) :
    parseArgs ["-s", v] = .stoiFailure ∧
    parseArgs ["-b", v] = .stoiFailure ∧
    parseArgs ["-e", v] = .stoiFailure ∧
    stoi "foo" = none ∧
    mainRun ["-s", v] aff s osErr = .abnormal ∧
    mainRun ["-s", v] aff s osErr ≠ .exited 1 [] usageLines ∧
    ParseResult.stoiFailure ≠ ParseResult.usage := by
  have hs : parseArgs ["-s", v] = .stoiFailure := by
    simp [parseArgs, parseLoop, procChars, hv]
  refine ⟨hs, ?_, ?_, by decide, ?_, ?_, by decide⟩
  · simp [parseArgs, parseLoop, procChars, hv]
  · simp [parseArgs, parseLoop, procChars, hv]
  · simp [mainRun, hs]
  · simp [mainRun, hs]

/-- C10 witness at a concrete input. -/
theorem claim_C10_stoi_throw_witness :
    parseArgs ["-s", "foo"] = .stoiFailure :=
  (claim_C10_stoi_throw "foo" (by decide) none sOne "E").1
